import Mathlib

/-!
Shallow embedding of the IRon turn orchestrator core, translated from the Go
sources: `internal/middleware` (chain.go, middleware.go, debug.go),
`internal/memory/store.go`, and the chat service (`SendWithContext`) of the
unnamed source file `part_003` (package chat), which the claims cite by line.

Modelling conventions:
- Go slices become `List`, Go `int` becomes `Int`, Go maps become association
  lists keyed by `String` (Go map keys are unique; first-match lookup agrees).
- `map[string]any` context values become the inductive `CtxVal`.
- `float64` configuration fields of `LLMParams` become `Rat`; no embedded
  operation computes with them, they are only carried.
- The LLM adapter, an interface, is an oracle function indexed by the number of
  adapter calls already made in the turn, so one theorem quantifies over every
  adapter behavior.  `json.Unmarshal` of tool arguments and `time.Now()` are
  likewise oracle fields of `Env`.
- Console/stream callbacks (`statusCb`, `streamCb`, debug logging) only write to
  the terminal or a log writer and are dropped; no claim mentions them.
- `sort.SliceStable` (chain) is modelled by the stable insertion sort
  `sortStable` with `le a b := ¬ less b a`; a stable sort for a strict weak
  order is unique, so this is exact.  `sort.Slice` (memory store) is unstable;
  `sortStable` yields one admissible outcome, and only order properties true
  of every admissible outcome are proved about it.
- Go string helpers that the kernel cannot evaluate in core form
  (`strings.TrimSpace`, `strings.ToLower`, `strings.Fields`) are embedded as
  the character-list functions `goTrim`, `goToLower`, `goFields`.
-/

namespace IRon

/-- Values stored in the free-form `map[string]any` context attached to events
(`Event.Context` in middleware.go).  `toolCallsV` encodes a `[]middleware.ToolCall`
entry as (tool name, argument map) pairs. -/
inductive CtxVal where
  | boolV (b : Bool)
  | strV (s : String)
  | intV (n : Int)
  | toolCallsV (ts : List (String × List (String × CtxVal)))

/-- A `map[string]any` context, as an association list with unique keys. -/
abbrev Ctx := List (String × CtxVal)

/-- Go map read `m[k]`. -/
def ctxLookup (c : Ctx) (k : String) : Option CtxVal :=
  match c.find? (fun p => p.1 == k) with
  | some p => some p.2
  | none => none

/-- Go map write `m[k] = v`: replaces an existing binding, else appends. -/
def ctxSet (c : Ctx) (k : String) (v : CtxVal) : Ctx :=
  if c.any (fun p => p.1 == k) then
    c.map (fun p => if p.1 == k then (k, v) else p)
  else
    c ++ [(k, v)]

/-- The heartbeat probe of SendWithContext (part_003 lines 99-104): a `nil`
context or a missing/non-bool `is_heartbeat` entry reads as `false`. -/
def ctxIsHeartbeat (c : Option Ctx) : Bool :=
  match c with
  | none => false
  | some m =>
    match ctxLookup m "is_heartbeat" with
    | some (.boolV b) => b
    | _ => false

/-- `llms.FunctionDefinition` (name, description, JSON-schema parameters).  The
schema map is carried opaquely in Go and inspected by no embedded operation, so
it is omitted here. -/
structure FunctionDefinition where
  name : String
  description : String := ""
deriving DecidableEq

/-- `llms.Tool`: a type tag plus an optional function definition. -/
structure Tool where
  type : String := "function"
  function : Option FunctionDefinition := none
deriving DecidableEq

/-- `middleware.Message` (role/text pairs inside LLMParams). -/
structure MWMessage where
  role : String
  text : String
deriving DecidableEq

/-- `middleware.LLMParams` (middleware.go).  `float64` fields are carried as
`Rat`; `ToolChoice any` is carried as an optional `CtxVal`. -/
structure LLMParams where
  model : String := ""
  messages : List MWMessage := []
  temperature : Rat := 0
  topP : Rat := 0
  maxTokens : Int := 0
  frequencyPenalty : Rat := 0
  presencePenalty : Rat := 0
  stop : List String := []
  seed : Option Int := none
  tools : List Tool := []
  toolChoice : Option CtxVal := none
  functions : List FunctionDefinition := []

/-- `middleware.ToolCall`: tool name plus decoded JSON argument map. -/
structure MWToolCall where
  tool : String
  args : List (String × CtxVal) := []

/-- `middleware.EventName`. -/
inductive EventName where
  | beforeLLMRequest
  | afterLLMResponse
  | beforeUserReply
deriving DecidableEq

/-- `middleware.Decision` (middleware.go). -/
structure Decision where
  cancel : Bool := false
  reprompt : Bool := false
  reason : String := ""
  replaceText : Option String := none
  overrideParams : Option LLMParams := none
  toolCalls : List MWToolCall := []

/-- `middleware.Event` (middleware.go).  `Params *LLMParams` is an option. -/
structure Event where
  name : EventName
  userText : String := ""
  llmText : String := ""
  params : Option LLMParams := none
  attempt : Int := 0
  maxRetry : Int := 0
  context : Ctx := []

/-- One interceptor: `ID()`, `Priority()`, `OnEvent`, and the optional
`ConditionalMiddleware` extension (`conditional` is whether the Go type
assertion to ConditionalMiddleware succeeds; `shouldLoad` is its answer). -/
structure Middleware where
  id : String
  priority : Int
  conditional : Bool := false
  shouldLoad : Event → Bool := fun _ => true
  onEvent : Event → Except String Decision

/-- `middleware.DecisionResult` (chain.go). -/
structure DecisionResult where
  middlewareID : String
  priority : Int
  decision : Decision

/-- `applyDecisionToEvent` (debug.go lines 62-78): OverrideParams replaces the
event params wholesale; ReplaceText rewrites UserText on before_llm_request and
LLMText on the two response events. -/
def applyDecisionToEvent (e : Event) (dec : Decision) : Event :=
  let e1 := match dec.overrideParams with
    | some p => { e with params := some p }
    | none => e
  match dec.replaceText with
  | none => e1
  | some t =>
    match e1.name with
    | .beforeLLMRequest => { e1 with userText := t }
    | .afterLLMResponse => { e1 with llmText := t }
    | .beforeUserReply => { e1 with llmText := t }

/-- The decision recorded for a skipped interceptor (chain.go lines 74-80). -/
def skipDecision : Decision := { reason := "skipped (ShouldLoad=false)" }

/-- Outcome of `Chain.Dispatch`, with the final event state and a ghost trace
of the interceptor ids whose `OnEvent` was actually invoked.  `done` ran off
the end of the chain, `halted` stopped at a cancel, `failed` stopped at an
interceptor error (Go then returns `nil, err`, discarding the results). -/
inductive DispatchOut where
  | done (results : List DecisionResult) (e : Event) (invoked : List String)
  | halted (results : List DecisionResult) (e : Event) (invoked : List String)
  | failed (err : String) (e : Event) (invoked : List String)

/-- Prepend already-recorded results and invocations to a tail outcome (results
accumulate across the loop of chain.go lines 70-104; on `failed` Go drops
them). -/
def DispatchOut.after (rs : List DecisionResult) (inv : List String) :
    DispatchOut → DispatchOut
  | .done rs' e inv' => .done (rs ++ rs') e (inv ++ inv')
  | .halted rs' e inv' => .halted (rs ++ rs') e (inv ++ inv')
  | .failed err e inv' => .failed err e (inv ++ inv')

/-- The results field of an outcome as `Chain.Dispatch` returns it:
`failed` yields `nil` (chain.go line 87). -/
def DispatchOut.goResults : DispatchOut → List DecisionResult
  | .done rs _ _ => rs
  | .halted rs _ _ => rs
  | .failed _ _ _ => []

/-- The error returned by `Chain.Dispatch`. -/
def DispatchOut.goError : DispatchOut → Option String
  | .done _ _ _ => none
  | .halted _ _ _ => none
  | .failed err _ _ => some err

/-- The event after dispatch (the Go event is mutated in place). -/
def DispatchOut.event : DispatchOut → Event
  | .done _ e _ => e
  | .halted _ e _ => e
  | .failed _ e _ => e

/-- The ghost list of interceptor ids whose `OnEvent` ran, in order. -/
def DispatchOut.invokedIds : DispatchOut → List String
  | .done _ _ inv => inv
  | .halted _ _ inv => inv
  | .failed _ _ inv => inv

/-- `Chain.Dispatch` (chain.go lines 63-106) over the snapshot list: skip
conditional interceptors that decline (recording a skipped entry), halt with
the error if `OnEvent` fails, otherwise apply the decision to the event in
place, record the result, and stop after a cancel. -/
def dispatchList : List Middleware → Event → DispatchOut
  | [], e => .done [] e []
  | mw :: rest, e =>
    if mw.conditional && !mw.shouldLoad e then
      (dispatchList rest e).after [⟨mw.id, mw.priority, skipDecision⟩] []
    else
      match mw.onEvent e with
      | .error err => .failed err e [mw.id]
      | .ok dec =>
        let e' := applyDecisionToEvent e dec
        if dec.cancel then
          .halted [⟨mw.id, mw.priority, dec⟩] e' [mw.id]
        else
          (dispatchList rest e').after [⟨mw.id, mw.priority, dec⟩] [mw.id]

/-- The pair `Chain.Dispatch` returns to its Go caller. -/
def dispatch (mws : List Middleware) (e : Event) :
    List DecisionResult × Option String :=
  ((dispatchList mws e).goResults, (dispatchList mws e).goError)

/-- Insert `x` after every element `y` with `le y x` (so that, for a total
preorder, an element registered later lands after its ties). -/
def insertLE {α : Type} (le : α → α → Bool) (x : α) : List α → List α
  | [] => [x]
  | y :: ys => if le y x then y :: insertLE le x ys else x :: y :: ys

/-- Stable sort by `le`: fold the list left to right, inserting each element
after its ties.  For a strict weak order this is the unique stable sort, i.e.
the function Go's `sort.SliceStable` computes with `less a b := ¬ le b a`. -/
def sortStable {α : Type} (le : α → α → Bool) (l : List α) : List α :=
  l.foldl (fun acc x => insertLE le x acc) []

/-- The order `sortLocked` establishes: `sort.SliceStable` with
`less i j := priority i > priority j`, i.e. `le a b := priority b ≤ priority a`. -/
def mwLE (a b : Middleware) : Bool := b.priority ≤ a.priority

/-- `Chain.sortLocked` (chain.go lines 108-112): stable sort by descending
priority. -/
def sortLocked (mws : List Middleware) : List Middleware :=
  sortStable mwLE mws

/-- `Chain.Use` (chain.go lines 47-52): append, then re-sort stably. -/
def chainUse (c : List Middleware) (mw : Middleware) : List Middleware :=
  sortLocked (c ++ [mw])

/-- `NewChain` / registering interceptors one by one through `Use`. -/
def newChain (regs : List Middleware) : List Middleware :=
  regs.foldl chainUse []

/-! Memory store (internal/memory/store.go). -/

/-- `strings.TrimSpace`: drop whitespace from both ends.  (Defined over the
character list so that it reduces by kernel computation; core `String.trim`
is position-based and does not.) -/
def goTrim (s : String) : String :=
  ⟨((s.toList.dropWhile Char.isWhitespace).reverse.dropWhile Char.isWhitespace).reverse⟩

/-- `strings.ToLower` (the embedded strings are basic latin). -/
def goToLower (s : String) : String :=
  ⟨s.toList.map Char.toLower⟩

/-- Accumulator pass of `goFields`: split a character list at whitespace runs. -/
def fieldsAux : List Char → List Char → List String
  | [], cur => if cur.isEmpty then [] else [⟨cur.reverse⟩]
  | c :: cs, cur =>
    if c.isWhitespace then
      if cur.isEmpty then fieldsAux cs [] else ⟨cur.reverse⟩ :: fieldsAux cs []
    else fieldsAux cs (c :: cur)

/-- `strings.Fields`: the maximal whitespace-free substrings, in order. -/
def goFields (s : String) : List String :=
  fieldsAux s.toList []

/-- The cutset of `strings.Trim(p, ".,;:!?()[]{}\"'")` in `tokenSet`
(store.go line 77).  Brace, quote and apostrophe characters are written by
code point. -/
def punctChars : List Char :=
  ['.', ',', ';', ':', '!', '?', '(', ')', '[', ']',
   Char.ofNat 123, Char.ofNat 125, Char.ofNat 34, Char.ofNat 39]

/-- `strings.Trim(s, cutset)`: drop cutset characters from both ends. -/
def trimCutset (s : String) : String :=
  let cs := s.toList.dropWhile (punctChars.contains ·)
  ⟨(cs.reverse.dropWhile (punctChars.contains ·)).reverse⟩

/-- `tokenSet` (store.go lines 73-84): lowercase, split into fields, trim the
punctuation cutset, keep tokens of at least 2 bytes.  The Go `map[string]struct{}`
set becomes a duplicate-free list. -/
def tokenSet (s : String) : List String :=
  (goFields (goToLower s)).foldl
    (fun acc p =>
      let p := trimCutset p
      if p.utf8ByteSize < 2 then acc
      else if acc.contains p then acc
      else acc ++ [p])
    []

/-- `overlap` (store.go lines 86-97): the number of tokens shared by the two
sets. -/
def overlap (a b : List String) : Nat :=
  if a.isEmpty || b.isEmpty then 0
  else (a.filter (b.contains ·)).length

/-- The memory store: `docs map[string][]string`, session key to documents. -/
abbrev Store := List (String × List String)

/-- Go map read `s.docs[session]` (missing key reads as the empty slice). -/
def docsOf (st : Store) (session : String) : List String :=
  match st.find? (fun p => p.1 == session) with
  | some p => p.2
  | none => []

/-- `Store.Index` (store.go lines 21-28): drop blank text, else append the
trimmed text under the session key. -/
def storeIndex (st : Store) (session text : String) : Store :=
  if goTrim text == "" then st
  else if st.any (fun p => p.1 == session) then
    st.map (fun p => if p.1 == session then (p.1, p.2 ++ [goTrim text]) else p)
  else
    st ++ [(session, [goTrim text])]

/-- A scored document inside `Query` (store.go lines 40-43). -/
structure Scored where
  text : String
  score : Nat
deriving DecidableEq

/-- The sort order of `Query` (store.go lines 57-62): `sort.Slice` with
`less i j := score i > score j, ties: len(text i) < len(text j)`; as a `le`
this is `score b < score a ∨ (score a = score b ∧ len a ≤ len b)`. -/
def scoredLE (a b : Scored) : Bool :=
  decide (b.score < a.score) || (a.score == b.score && a.text.utf8ByteSize ≤ b.text.utf8ByteSize)

/-- The scoring pass of `Query` (store.go lines 44-53): skip empty docs, keep
docs whose overlap with the query set is positive, in stored order.  The Go
loop appends to `sc`; the order-preserving `filterMap` is the same function. -/
def scoreDocs (qset : List String) (docs : List String) : List Scored :=
  docs.filterMap (fun d =>
    if d == "" then none
    else
      let score := overlap qset (tokenSet d)
      if score > 0 then some ⟨d, score⟩ else none)

/-- `Store.Query` (store.go lines 31-71): empty docs, blank query or `k ≤ 0`
yield nothing; otherwise score every stored doc by token overlap with the
query, keep positive scores, sort by descending score with shorter-text
tie-break, and truncate to `k`. -/
def storeQuery (st : Store) (session query : String) (k : Int) : List String :=
  let docs := docsOf st session
  if docs.isEmpty || goTrim query == "" || decide (k ≤ 0) then []
  else
    let sc := scoreDocs (tokenSet query) docs
    if sc.isEmpty then []
    else
      let sorted := sortStable scoredLE sc
      let sorted := if (sorted.length : Int) > k then sorted.take k.toNat else sorted
      sorted.map (·.text)

/-- The ranking the spec ascribes to `Query` results for query `q`: descending
overlap of lowercased token sets, ties broken by the shorter document (byte
length, as Go's `len`). -/
def rankedBy (q a b : String) : Prop :=
  overlap (tokenSet q) (tokenSet a) > overlap (tokenSet q) (tokenSet b)
  ∨ (overlap (tokenSet q) (tokenSet a) = overlap (tokenSet q) (tokenSet b)
      ∧ a.utf8ByteSize ≤ b.utf8ByteSize)

/-! Chat service (package chat): types and `SendWithContext` of part_003. -/

/-- `chat.Role`. -/
inductive Role where
  | user
  | assistant
  | system
  | tool
deriving DecidableEq

/-- The `chat.ToolCall` used by part_003 (`t.ID`, `t.Name`, `t.Arguments`): the
adapter-decoupled tool call with raw JSON arguments.  part_003 reads all three
fields; the two-field variant in part_006 belongs to the older adapter. -/
structure ToolCall where
  id : String
  name : String
  arguments : String
deriving DecidableEq

/-- `chat.Message` (part_004). -/
structure Message where
  role : Role
  content : String
  toolCalls : List ToolCall := []
  toolCallID : String := ""
  toolName : String := ""
deriving DecidableEq

/-- One registered skill (`skills.Skill` interface): name, description and
`Execute` over the decoded argument map.  The JSON-schema `Parameters()` map
is carried opaquely in Go and inspected by no embedded operation. -/
structure Skill where
  name : String
  description : String := ""
  execute : List (String × CtxVal) → Except String String

/-- The chat `Service` state that `SendWithContext` reads and writes: the
persistent history, the optional middleware chain, the optional memory store,
and the skill manager (a name-keyed map, modelled as a list; `NewService`
always installs a manager).  The console callbacks are dropped. -/
structure Service where
  history : List Message := []
  mws : Option (List Middleware) := none
  mem : Option Store := none
  skills : List Skill := []

/-- External collaborators of one `send`: the LLM adapter (indexed by how many
adapter calls the turn has already made, so every behavior of the interface is
covered), `json.Unmarshal` on tool-argument strings, and `time.Now()` rendered
in RFC1123. -/
structure Env where
  adapter : Nat → List Message → Except String (String × List ToolCall)
  parseArgs : String → Except String (List (String × CtxVal))
  now : String

/-- History pruning (part_003 lines 106-109): more than 20 messages are cut to
the newest 20. -/
def pruneHistory (h : List Message) : List Message :=
  if h.length > 20 then h.drop (h.length - 20) else h

/-- The memory preamble (part_003 lines 111-116): the top-2 query hits joined
into a context block, empty when there are no hits or no store. -/
def memoryContextOf (mem : Option Store) (input : String) : String :=
  match mem with
  | none => ""
  | some st =>
    let hits := storeQuery st "default" input 2
    if hits.isEmpty then ""
    else "<context>\n" ++ String.intercalate "\n" hits ++ "\n</context>"

/-- Helper loop of `applyTextDecisions` (part_003 lines 402-414). -/
def applyTextDecisionsGo : String → List DecisionResult → String × Option Decision
  | cur, [] => (cur, none)
  | cur, r :: rest =>
    let cur := match r.decision.replaceText with
      | some t => goTrim t
      | none => cur
    if r.decision.cancel then (cur, some r.decision)
    else applyTextDecisionsGo cur rest

/-- `applyTextDecisions` (part_003 lines 402-414): walk the dispatch results,
trimming and applying each ReplaceText, and stop at the first cancel. -/
def applyTextDecisions (initial : String) (rs : List DecisionResult) :
    String × Option Decision :=
  applyTextDecisionsGo (goTrim initial) rs

/-- Tool descriptors contributed by the skill registry (part_003 lines
157-171). -/
def skillTools (sks : List Skill) : List Tool :=
  sks.map (fun sk => { type := "function", function := some ⟨sk.name, sk.description⟩ })

/-- Tool deduplication by function name, first occurrence wins, non-function
tools pass through (part_003 lines 174-188). -/
def dedupeTools (ts : List Tool) : List Tool :=
  (ts.foldl
    (fun (acc : List Tool × List String) t =>
      match t.function with
      | none => (acc.1 ++ [t], acc.2)
      | some f =>
        if acc.2.contains f.name then acc
        else (acc.1 ++ [t], acc.2 ++ [f.name]))
    ([], [])).1

/-- The per-iteration system prompt (part_003 lines 200-214): fixed preamble
with the current time, the available tool names when params carry tools, and
the memory context block when non-empty. -/
def sysPromptOf (env : Env) (llmParams : Option LLMParams) (memoryContext : String) : String :=
  let base := "You are IRon, a terminal AI. You have access to tools. If a tool exists to answer the request, YOU MUST CALL THE TOOL. DO NOT generate text instead of calling tools. Time: " ++ env.now
  let base := match llmParams with
    | some p =>
      if p.tools.isEmpty then base
      else base ++ "\n\nAvailable tools: "
        ++ String.intercalate ", " ((p.tools.filterMap (·.function)).map (·.name))
        ++ ". ONLY use these tools."
    | none => base
  if memoryContext == "" then base else base ++ "\n\n" ++ memoryContext

/-- `executeMiddlewareTool` (part_003 lines 361-400): re-dispatch an
after_llm_response event carrying just this tool call; the first result with
cancel and a ReplaceText is the tool output, otherwise an error. -/
def executeMiddlewareTool (env : Env) (svc : Service) (mwCtx : Option Ctx)
    (tc : ToolCall) : Except String String :=
  match svc.mws with
  | none => .error "no middleware chain"
  | some chain =>
    let args := match env.parseArgs tc.arguments with
      | .ok m => m
      | .error _ => []
    let toolCtx := ctxSet (mwCtx.getD []) "tool_calls" (.toolCallsV [(tc.name, args)])
    let e : Event := { name := .afterLLMResponse, context := toolCtx }
    match dispatchList chain e with
    | .failed err _ _ => .error err
    | .done rs _ _ | .halted rs _ _ =>
      match rs.find? (fun r => r.decision.cancel && r.decision.replaceText.isSome) with
      | some r => .ok (r.decision.replaceText.getD "")
      | none => .error "no middleware handled this tool"

/-- Execution of one tool call (part_003 lines 256-308): built-in skill first
(with JSON argument parsing), else the middleware fallback, else a not-found
message; a blank result becomes "Success (no output)"; the tool message
carries the call id and name. -/
def runToolCall (env : Env) (svc : Service) (mwCtx : Option Ctx) (tc : ToolCall) : Message :=
  let result :=
    match svc.skills.find? (fun sk => sk.name == tc.name) with
    | some sk =>
      match env.parseArgs tc.arguments with
      | .error msg => "Error: Invalid arguments JSON: " ++ msg
      | .ok args =>
        match sk.execute args with
        | .error err => "Error executing tool: " ++ err
        | .ok r => r
    | none =>
      match executeMiddlewareTool env svc mwCtx tc with
      | .ok r => r
      | .error _ => "Error: Tool '" ++ tc.name ++ "' not found."
  let result := if result == "" then "Success (no output)" else result
  { role := .tool, content := result, toolCallID := tc.id, toolName := tc.name }

/-- Outcome of the agent loop (part_003 lines 198-316), with the final
turn-local history and the ghost count of adapter calls made. -/
inductive LoopOut where
  | reply (text : String) (cur : List Message) (calls : Nat)
  | exhausted (cur : List Message) (calls : Nat)
  | failed (err : String) (calls : Nat)

/-- The agent loop (part_003 lines 198-316): each iteration prepends the
system message, calls the adapter, appends the assistant message, finishes on
a tool-free reply, and otherwise appends the tool results in the order the
model emitted the calls.  Running out of fuel is the iteration-cap exit, where
`finalResponse` was never assigned. -/
def agentLoop (env : Env) (svc : Service) (mwCtx : Option Ctx)
    (llmParams : Option LLMParams) (memoryContext : String) :
    Nat → Nat → List Message → LoopOut
  | 0, calls, cur => .exhausted cur calls
  | fuel + 1, calls, cur =>
    let messages := Message.mk .system (sysPromptOf env llmParams memoryContext) [] "" "" :: cur
    match env.adapter calls messages with
    | .error err => .failed err (calls + 1)
    | .ok (text, toolCalls) =>
      let cur := cur ++ [{ role := .assistant, content := text, toolCalls := toolCalls }]
      if toolCalls.isEmpty then .reply text cur (calls + 1)
      else
        agentLoop env svc mwCtx llmParams memoryContext fuel (calls + 1)
          (cur ++ toolCalls.map (runToolCall env svc mwCtx))

/-- The history commit (part_003 lines 318-325): append the user message, then
the loop-added suffix selected by the slicing heuristic. -/
def commitHistory (pruned : List Message) (input : String) (cur : List Message) :
    List Message :=
  let h := pruned ++ [{ role := .user, content := input }]
  if cur.length > h.length then h ++ cur.drop h.length else h

/-- The post-LLM middleware pass (part_003 lines 327-350): dispatch errors are
swallowed; a cancel keeps the pre-dispatch reply unless the replacement is
non-blank; otherwise the rewritten text stands. -/
def postDispatch (svc : Service) (mwCtx : Option Ctx) (input finalResponse : String) :
    String :=
  match svc.mws with
  | none => finalResponse
  | some chain =>
    let e : Event := { name := .afterLLMResponse, userText := input,
                       llmText := finalResponse, context := mwCtx.getD [] }
    match dispatchList chain e with
    | .failed _ _ _ => finalResponse
    | .done rs _ _ | .halted rs _ _ =>
      let (updated, canceled) := applyTextDecisions finalResponse rs
      match canceled with
      | some d =>
        if d.cancel then (if goTrim updated == "" then finalResponse else updated)
        else updated
      | none => updated

/-- Memory indexing of the turn (part_003 lines 352-355). -/
def indexTurn (svc : Service) (isHeartbeat : Bool) (input finalResponse : String) :
    Service :=
  match svc.mem with
  | none => svc
  | some st =>
    if isHeartbeat then svc
    else { svc with
           mem := some (storeIndex (storeIndex st "default" input) "default" finalResponse) }

/-- What one `SendWithContext` returns to its caller plus the state it leaves
behind and the ghost adapter-call count. -/
structure SendOut where
  reply : Except String String
  svc : Service
  calls : Nat

/-- The tail of a turn after the agent loop produced `finalResponse` and the
turn-local history `cur` (part_003 lines 318-357): commit history unless
heartbeat, run the post-LLM middleware pass, index memory unless heartbeat. -/
def sendFinish (svc : Service) (mwCtx : Option Ctx) (isHeartbeat : Bool)
    (input finalResponse : String) (cur : List Message) (calls : Nat) : SendOut :=
  let svc := if isHeartbeat then svc
    else { svc with history := commitHistory svc.history input cur }
  let finalResponse := postDispatch svc mwCtx input finalResponse
  let svc := indexTurn svc isHeartbeat input finalResponse
  ⟨.ok finalResponse, svc, calls⟩

/-- Steps 3-4 of `SendWithContext` (part_003 lines 156-188): append one tool
descriptor per registered skill to the params the pre-middleware pass
produced (creating empty params when there were none), then deduplicate by
function name when more than one tool is present. -/
def loopParams (params0 : Option LLMParams) (sks : List Skill) : Option LLMParams :=
  let llmParams : Option LLMParams :=
    some { params0.getD {} with tools := (params0.getD {}).tools ++ skillTools sks }
  match llmParams with
  | some p => some (if p.tools.length > 1 then { p with tools := dedupeTools p.tools } else p)
  | none => none

/-- Steps 5-6 of `SendWithContext` (part_003 lines 190-357), entered after the
pre-middleware pass: run the agent loop from the pruned history plus the user
message with the skill-extended params, and finish the turn.  An adapter error
aborts with the error (the pending user message was only in the turn-local
copy). -/
def sendLoopPhase (env : Env) (svc : Service) (mwCtx : Option Ctx) (input : String)
    (params0 : Option LLMParams) (isHeartbeat : Bool) (memoryContext : String) : SendOut :=
  match agentLoop env svc mwCtx (loopParams params0 svc.skills) memoryContext 10 0
      (svc.history ++ [{ role := .user, content := input }]) with
  | .failed err calls => ⟨.error err, svc, calls⟩
  | .reply text cur calls => sendFinish svc mwCtx isHeartbeat input text cur calls
  | .exhausted cur calls => sendFinish svc mwCtx isHeartbeat input "" cur calls

/-- `SendWithContext` (part_003 lines 90-358): trim and reject empty input,
read the heartbeat flag, prune the history, build the memory context, run the
pre-LLM middleware pass (whose cancel short-circuits the turn), then the loop
phase. -/
def sendWithContext (env : Env) (svc : Service) (input0 : String)
    (mwCtx0 : Option Ctx) : SendOut :=
  let input := goTrim input0
  if input == "" then ⟨.error "empty input", svc, 0⟩
  else
    let isHeartbeat := ctxIsHeartbeat mwCtx0
    let svc := { svc with history := pruneHistory svc.history }
    let memoryContext := memoryContextOf svc.mem input
    match svc.mws with
    | none => sendLoopPhase env svc mwCtx0 input none isHeartbeat memoryContext
    | some chain =>
      let mwCtx : Ctx := mwCtx0.getD []
      let e : Event := { name := .beforeLLMRequest, userText := input,
                         context := mwCtx, params := some {} }
      match dispatchList chain e with
      | .failed err _ _ => ⟨.error err, svc, 0⟩
      | .done rs e' _ | .halted rs e' _ =>
        let (updated, canceled) := applyTextDecisions input rs
        match canceled with
        | some d =>
          if d.cancel then
            if goTrim updated ≠ "" then
              let svc := if isHeartbeat then svc
                else { svc with history := svc.history
                  ++ [{ role := .user, content := input }, { role := .assistant, content := updated }] }
              ⟨.ok updated, svc, 0⟩
            else if goTrim d.reason == "" then ⟨.error "request canceled by middleware", svc, 0⟩
            else ⟨.error d.reason, svc, 0⟩
          else sendLoopPhase env svc (some mwCtx) updated e'.params isHeartbeat memoryContext
        | none => sendLoopPhase env svc (some mwCtx) updated e'.params isHeartbeat memoryContext

/-- Ghost accessor: how many adapter calls a loop outcome consumed. -/
def LoopOut.callCount : LoopOut → Nat
  | .reply _ _ c => c
  | .exhausted _ c => c
  | .failed _ c => c

/-! Concrete instances used by scenario theorems and witnesses. -/

/-- An interceptor that always returns the zero (no-op) decision. -/
def mwNoop (i : String) (p : Int) : Middleware :=
  ⟨i, p, false, fun _ => true, fun _ => .ok {}⟩

/-- An interceptor that always cancels. -/
def mwCancel (i : String) (p : Int) : Middleware :=
  ⟨i, p, false, fun _ => true, fun _ => .ok { cancel := true }⟩

/-- An interceptor that always fails with the error "boom". -/
def mwBoom (i : String) (p : Int) : Middleware :=
  ⟨i, p, false, fun _ => true, fun _ => .error "boom"⟩

/-- A conditional interceptor whose `ShouldLoad` always declines. -/
def mwOff (i : String) (p : Int) : Middleware :=
  ⟨i, p, true, fun _ => false, fun _ => .ok {}⟩

/-- A sample before_llm_request event. -/
def eBefore : Event := { name := .beforeLLMRequest, userText := "hi" }

/-- An adapter that always answers "T" with one tool call, driving the agent
loop to the iteration cap. -/
def envToolsForever : Env :=
  ⟨fun _ _ => .ok ("T", [⟨"1", "x", "\x7b\x7d"⟩]), fun _ => .error "bad json", "Mon, 01 Jan 2024 00:00:00 UTC"⟩

/-- An adapter that always fails with "boom". -/
def envBoom : Env :=
  ⟨fun _ _ => .error "boom", fun _ => .error "bad json", "Mon, 01 Jan 2024 00:00:00 UTC"⟩

/-- An adapter that always answers "T" with no tool calls. -/
def envPlain : Env :=
  ⟨fun _ _ => .ok ("T", []), fun _ => .error "bad json", "Mon, 01 Jan 2024 00:00:00 UTC"⟩

/-- A bare service: empty history, no chain, no memory, no skills. -/
def svcBare : Service := {}

/-- A service whose persistent history already holds 21 messages. -/
def svc21 : Service := { history := List.replicate 21 ⟨.user, "m", [], "", ""⟩ }

/-- A 21-message service that also owns an (empty) memory store. -/
def svc21mem : Service := { history := List.replicate 21 ⟨.user, "m", [], "", ""⟩, mem := some [] }

/-- A channel context carrying `is_heartbeat = true`. -/
def hbCtx : Option Ctx := some [("is_heartbeat", .boolV true)]

/-- A small populated memory store for the query witnesses. -/
def stSample : Store :=
  storeIndex (storeIndex (storeIndex [] "s" "alpha beta") "s" "gamma delta") "s" "alpha gamma beta"

/-! Helper lemmas: the stable sort, the dispatch recursion, the agent loop. -/

lemma mwLE_trans : ∀ a b c : Middleware, mwLE a b → mwLE b c → mwLE a c := by
  intro a b c hab hbc
  simp only [mwLE, decide_eq_true_eq] at *
  omega

lemma mwLE_total : ∀ a b : Middleware, mwLE a b || mwLE b a := by
  intro a b
  simp only [mwLE, Bool.or_eq_true, decide_eq_true_eq]
  omega

lemma scoredLE_trans : ∀ a b c : Scored, scoredLE a b → scoredLE b c → scoredLE a c := by
  intro a b c hab hbc
  simp only [scoredLE, Bool.or_eq_true, Bool.and_eq_true, decide_eq_true_eq, beq_iff_eq] at *
  omega

lemma scoredLE_total : ∀ a b : Scored, scoredLE a b || scoredLE b a := by
  intro a b
  simp only [scoredLE, Bool.or_eq_true, Bool.and_eq_true, decide_eq_true_eq, beq_iff_eq]
  omega

lemma mem_insertLE {α : Type} (le : α → α → Bool) (x : α) (l : List α) (a : α) :
    a ∈ insertLE le x l ↔ a = x ∨ a ∈ l := by
  induction l with
  | nil => simp [insertLE]
  | cons y ys ih =>
    by_cases h : le y x = true
    · rw [insertLE, if_pos h]
      simp only [List.mem_cons, ih]
      tauto
    · rw [insertLE, if_neg h]
      simp only [List.mem_cons]

lemma insertLE_pairwise {α : Type} (le : α → α → Bool)
    (htrans : ∀ a b c : α, le a b → le b c → le a c)
    (htotal : ∀ a b : α, le a b || le b a)
    (x : α) {l : List α} (hl : l.Pairwise (fun a b => le a b)) :
    (insertLE le x l).Pairwise (fun a b => le a b) := by
  induction l with
  | nil => simp [insertLE]
  | cons y ys ih =>
    rcases List.pairwise_cons.mp hl with ⟨hy, hys⟩
    by_cases h : le y x = true
    · rw [insertLE, if_pos h]
      refine List.pairwise_cons.mpr ⟨?_, ih hys⟩
      intro a ha
      rcases (mem_insertLE le x ys a).mp ha with rfl | ha'
      · exact h
      · exact hy a ha'
    · rw [insertLE, if_neg h]
      have hxy : le x y = true := by
        have := htotal y x
        simp only [Bool.or_eq_true] at this
        tauto
      refine List.pairwise_cons.mpr ⟨?_, hl⟩
      intro a ha
      rcases List.mem_cons.mp ha with rfl | ha'
      · exact hxy
      · exact htrans x y a hxy (hy a ha')

lemma insertLE_perm {α : Type} (le : α → α → Bool) (x : α) (l : List α) :
    List.Perm (insertLE le x l) (x :: l) := by
  induction l with
  | nil => exact List.Perm.refl _
  | cons y ys ih =>
    by_cases h : le y x = true
    · rw [insertLE, if_pos h]
      exact (ih.cons y).trans (List.Perm.swap x y ys)
    · rw [insertLE, if_neg h]

lemma sortStable_pairwise {α : Type} (le : α → α → Bool)
    (htrans : ∀ a b c : α, le a b → le b c → le a c)
    (htotal : ∀ a b : α, le a b || le b a) (l : List α) :
    (sortStable le l).Pairwise (fun a b => le a b) := by
  have aux : ∀ (l acc : List α), acc.Pairwise (fun a b => le a b) →
      (List.foldl (fun acc x => insertLE le x acc) acc l).Pairwise (fun a b => le a b) := by
    intro l
    induction l with
    | nil => intro acc hacc; exact hacc
    | cons x xs ih =>
      intro acc hacc
      exact ih _ (insertLE_pairwise le htrans htotal x hacc)
  exact aux l [] (by simp)

lemma sortStable_perm {α : Type} (le : α → α → Bool) (l : List α) :
    List.Perm (sortStable le l) l := by
  have aux : ∀ (l acc : List α),
      List.Perm (List.foldl (fun acc x => insertLE le x acc) acc l) (acc ++ l) := by
    intro l
    induction l with
    | nil => intro acc; simp
    | cons x xs ih =>
      intro acc
      refine (ih (insertLE le x acc)).trans ?_
      refine (((insertLE_perm le x acc).append_right xs).trans ?_)
      exact (List.perm_middle).symm
  simpa using aux l []

/-- Inserting into a sorted list never passes an element of a mutually
`le`-tied class: the class sublist just gains `x` at its end. -/
lemma insertLE_filter_class {α : Type} (le : α → α → Bool)
    (htrans : ∀ a b c : α, le a b → le b c → le a c)
    (p : α → Bool) (hcls : ∀ a b, p a → p b → le a b)
    (x : α) {l : List α} (hl : l.Pairwise (fun a b => le a b)) :
    (insertLE le x l).filter p
      = if p x then l.filter p ++ [x] else l.filter p := by
  induction l with
  | nil => by_cases hx : p x = true <;> simp [insertLE, hx]
  | cons y ys ih =>
    rcases List.pairwise_cons.mp hl with ⟨hy, hys⟩
    by_cases h : le y x = true
    · rw [insertLE, if_pos h]
      by_cases hyq : p y = true <;> by_cases hx : p x = true <;>
        simp [List.filter_cons, hyq, hx, ih hys]
    · rw [insertLE, if_neg h]
      by_cases hx : p x = true
      · have hynq : ¬ p y = true := by
          intro hy'
          exact h (hcls y x hy' hx)
        have hall : ∀ w ∈ ys, ¬ p w = true := by
          intro w hw hw'
          exact h (htrans y w x (hy w hw) (hcls w x hw' hx))
        have hfil : ys.filter p = [] := List.filter_eq_nil_iff.mpr hall
        simp [List.filter_cons, hx, hynq, hfil]
      · simp [List.filter_cons, hx]

/-- A stable sort leaves the sublist of any mutually `le`-tied class of
elements untouched. -/
lemma sortStable_filter_class {α : Type} (le : α → α → Bool)
    (htrans : ∀ a b c : α, le a b → le b c → le a c)
    (htotal : ∀ a b : α, le a b || le b a)
    (p : α → Bool) (hcls : ∀ a b, p a → p b → le a b) (l : List α) :
    (sortStable le l).filter p = l.filter p := by
  have aux : ∀ (l acc : List α), acc.Pairwise (fun a b => le a b) →
      (List.foldl (fun acc x => insertLE le x acc) acc l).filter p
        = acc.filter p ++ l.filter p := by
    intro l
    induction l with
    | nil => intro acc _; simp
    | cons x xs ih =>
      intro acc hacc
      rw [List.foldl_cons, ih _ (insertLE_pairwise le htrans htotal x hacc),
        insertLE_filter_class le htrans p hcls x hacc]
      by_cases hx : p x = true <;> simp [List.filter_cons, hx]
  simpa using aux l [] (by simp)

lemma after_nil (o : DispatchOut) : o.after [] [] = o := by
  cases o <;> simp [DispatchOut.after]

lemma after_after (o : DispatchOut) (rs1 inv1 rs2 inv2) :
    (o.after rs2 inv2).after rs1 inv1 = o.after (rs1 ++ rs2) (inv1 ++ inv2) := by
  cases o <;> simp [DispatchOut.after]

lemma after_done_iff {o : DispatchOut} {rs1 : List DecisionResult} {inv1 : List String}
    {rs : List DecisionResult} {e : Event} {inv : List String} :
    o.after rs1 inv1 = .done rs e inv ↔
      ∃ rs0 inv0, o = .done rs0 e inv0 ∧ rs = rs1 ++ rs0 ∧ inv = inv1 ++ inv0 := by
  cases o <;> (simp [DispatchOut.after]; try aesop)

/-- Splitting the dispatch recursion at a prefix that ran to completion. -/
lemma dispatchList_append_done {xs : List Middleware} {e : Event}
    {rs : List DecisionResult} {e' : Event} {inv : List String} (ys : List Middleware)
    (h : dispatchList xs e = .done rs e' inv) :
    dispatchList (xs ++ ys) e = (dispatchList ys e').after rs inv := by
  induction xs generalizing e rs inv with
  | nil =>
    simp only [dispatchList] at h
    cases h
    simp [after_nil]
  | cons mw rest ih =>
    simp only [dispatchList, List.append_eq] at h ⊢
    by_cases hg : (mw.conditional && !mw.shouldLoad e) = true
    · rw [if_pos hg] at h ⊢
      rcases after_done_iff.mp h with ⟨rs0, inv0, h0, hrs, hinv⟩
      subst hrs; subst hinv
      rw [ih h0, after_after]; simp
    · rw [if_neg hg] at h ⊢
      cases honv : mw.onEvent e with
      | error err => simp [honv] at h
      | ok dec =>
        simp only [honv] at h ⊢
        by_cases hc : dec.cancel = true
        · rw [if_pos hc] at h; simp at h
        · rw [if_neg hc] at h ⊢
          rcases after_done_iff.mp h with ⟨rs0, inv0, h0, hrs, hinv⟩
          subst hrs; subst hinv
          rw [ih h0, after_after]

/-- When dispatch runs off the end of the chain, the recorded results follow
the chain order exactly, one entry per interceptor. -/
lemma dispatchList_done_ids {mws : List Middleware} {e : Event}
    {rs : List DecisionResult} {e' : Event} {inv : List String}
    (h : dispatchList mws e = .done rs e' inv) :
    rs.map (fun r => (r.middlewareID, r.priority)) = mws.map (fun m => (m.id, m.priority)) := by
  induction mws generalizing e rs inv with
  | nil => simp only [dispatchList] at h; cases h; simp
  | cons mw rest ih =>
    simp only [dispatchList] at h
    by_cases hg : (mw.conditional && !mw.shouldLoad e) = true
    · rw [if_pos hg] at h
      rcases after_done_iff.mp h with ⟨rs0, inv0, h0, hrs, _⟩
      subst hrs
      simp [ih h0]
    · rw [if_neg hg] at h
      cases honv : mw.onEvent e with
      | error err => simp [honv] at h
      | ok dec =>
        simp only [honv] at h
        by_cases hc : dec.cancel = true
        · rw [if_pos hc] at h; simp at h
        · rw [if_neg hc] at h
          rcases after_done_iff.mp h with ⟨rs0, inv0, h0, hrs, _⟩
          subst hrs
          simp [ih h0]

lemma chainUse_pairwise (c : List Middleware) (mw : Middleware) :
    (chainUse c mw).Pairwise (fun a b => mwLE a b) :=
  sortStable_pairwise mwLE mwLE_trans mwLE_total _

lemma newChain_pairwise (regs : List Middleware) :
    (newChain regs).Pairwise (fun a b => mwLE a b) := by
  have aux : ∀ (regs acc : List Middleware), acc.Pairwise (fun a b => mwLE a b) →
      (List.foldl chainUse acc regs).Pairwise (fun a b => mwLE a b) := by
    intro regs
    induction regs with
    | nil => intro acc hacc; exact hacc
    | cons r rs ih => intro acc _; exact ih _ (chainUse_pairwise acc r)
  exact aux regs [] (by simp)

lemma mwPri_class (p : Int) :
    ∀ a b : Middleware, (a.priority == p) → (b.priority == p) → mwLE a b := by
  intro a b ha hb
  simp only [beq_iff_eq] at ha hb
  simp only [mwLE, ha, hb, decide_eq_true_eq, le_refl]

lemma newChain_filter (regs : List Middleware) (p : Int) :
    (newChain regs).filter (fun m => m.priority == p)
      = regs.filter (fun m => m.priority == p) := by
  have aux : ∀ (regs acc : List Middleware),
      (List.foldl chainUse acc regs).filter (fun m => m.priority == p)
        = (acc ++ regs).filter (fun m => m.priority == p) := by
    intro regs
    induction regs with
    | nil => intro acc; simp
    | cons r rs ih =>
      intro acc
      rw [List.foldl_cons, ih (chainUse acc r)]
      have hcu : (chainUse acc r).filter (fun m => m.priority == p)
          = (acc ++ [r]).filter (fun m => m.priority == p) :=
        sortStable_filter_class mwLE mwLE_trans mwLE_total _ (mwPri_class p) _
      rw [List.filter_append, hcu, List.filter_append, List.filter_append,
        List.append_assoc]
      by_cases hr : (r.priority == p) = true <;> simp [List.filter_cons, hr]
  simpa using aux regs []

lemma agentLoop_callCount (env : Env) (svc : Service) (mwCtx : Option Ctx)
    (llmParams : Option LLMParams) (memoryContext : String) :
    ∀ (fuel calls : Nat) (cur : List Message),
      (agentLoop env svc mwCtx llmParams memoryContext fuel calls cur).callCount
        ≤ calls + fuel := by
  intro fuel
  induction fuel with
  | zero => intro calls cur; simp [agentLoop, LoopOut.callCount]
  | succ n ih =>
    intro calls cur
    rw [agentLoop]
    cases env.adapter calls
        (Message.mk .system (sysPromptOf env llmParams memoryContext) [] "" "" :: cur) with
    | error err => simp [LoopOut.callCount]
    | ok res =>
      rcases res with ⟨text, toolCalls⟩
      by_cases h : toolCalls.isEmpty = true
      · simp [h, LoopOut.callCount]
      · simp only [h, if_false]
        calc (agentLoop env svc mwCtx llmParams memoryContext n (calls + 1) _).callCount
            ≤ (calls + 1) + n := ih (calls + 1) _
          _ ≤ calls + (n + 1) := by omega

lemma sendFinish_reply_ok (svc : Service) (mwCtx : Option Ctx) (hb : Bool)
    (input fr : String) (cur : List Message) (calls : Nat) :
    ∃ s, (sendFinish svc mwCtx hb input fr cur calls).reply = .ok s :=
  ⟨_, rfl⟩

lemma sendFinish_hb_svc (svc : Service) (mwCtx : Option Ctx)
    (input fr : String) (cur : List Message) (calls : Nat) :
    (sendFinish svc mwCtx true input fr cur calls).svc = svc := by
  rw [sendFinish]
  cases hmem : svc.mem <;> simp [indexTurn, hmem]

lemma sendFinish_calls (svc : Service) (mwCtx : Option Ctx) (hb : Bool)
    (input fr : String) (cur : List Message) (calls : Nat) :
    (sendFinish svc mwCtx hb input fr cur calls).calls = calls := rfl

lemma sendLoopPhase_hb_svc (env : Env) (svc : Service) (mwCtx : Option Ctx)
    (input : String) (params0 : Option LLMParams) (mc : String) :
    (sendLoopPhase env svc mwCtx input params0 true mc).svc = svc := by
  rw [sendLoopPhase]
  split
  · rfl
  · exact sendFinish_hb_svc _ _ _ _ _ _
  · exact sendFinish_hb_svc _ _ _ _ _ _

lemma sendLoopPhase_error_svc (env : Env) (svc : Service) (mwCtx : Option Ctx)
    (input : String) (params0 : Option LLMParams) (hb : Bool) (mc : String)
    (err : String)
    (h : (sendLoopPhase env svc mwCtx input params0 hb mc).reply = .error err) :
    (sendLoopPhase env svc mwCtx input params0 hb mc).svc = svc := by
  rw [sendLoopPhase] at h ⊢
  split at h
  · rfl
  · rcases sendFinish_reply_ok svc mwCtx hb input _ _ _ with ⟨s, hs⟩
    rw [hs] at h; cases h
  · rcases sendFinish_reply_ok svc mwCtx hb input _ _ _ with ⟨s, hs⟩
    rw [hs] at h; cases h

lemma sendLoopPhase_calls_le (env : Env) (svc : Service) (mwCtx : Option Ctx)
    (input : String) (params0 : Option LLMParams) (hb : Bool) (mc : String) :
    (sendLoopPhase env svc mwCtx input params0 hb mc).calls ≤ 10 := by
  have hcc := agentLoop_callCount env svc mwCtx (loopParams params0 svc.skills) mc 10 0
    (svc.history ++ [{ role := .user, content := input }])
  rw [sendLoopPhase]
  split <;> rename_i heq <;> rw [heq] at hcc <;>
    simpa [LoopOut.callCount, sendFinish_calls] using hcc

lemma agentLoop_exhausts (env : Env) (svc : Service) (mwCtx : Option Ctx)
    (llmParams : Option LLMParams) (mc : String)
    (hadp : ∀ i msgs, ∃ t tcs, env.adapter i msgs = .ok (t, tcs) ∧ tcs ≠ []) :
    ∀ (fuel calls : Nat) (cur : List Message), ∃ cur',
      agentLoop env svc mwCtx llmParams mc fuel calls cur
        = .exhausted cur' (calls + fuel) := by
  intro fuel
  induction fuel with
  | zero => intro calls cur; exact ⟨cur, rfl⟩
  | succ n ih =>
    intro calls cur
    rcases hadp calls
        (Message.mk .system (sysPromptOf env llmParams mc) [] "" "" :: cur)
      with ⟨t, tcs, hcall, hne⟩
    rw [agentLoop]
    simp only [hcall]
    rw [if_neg (by simpa [List.isEmpty_iff] using hne)]
    rcases ih (calls + 1)
        ((cur ++ [{ role := .assistant, content := t, toolCalls := tcs }])
          ++ tcs.map (runToolCall env svc mwCtx)) with ⟨cur', hcur⟩
    refine ⟨cur', ?_⟩
    rw [hcur, show calls + 1 + n = calls + (n + 1) from by omega]

lemma postDispatch_no_chain (svc : Service) (mwCtx : Option Ctx)
    (input fr : String) (h : svc.mws = none) :
    postDispatch svc mwCtx input fr = fr := by
  rw [postDispatch, h]

/-! Claim theorems. -/

/-- C3: interceptors registered through `Use` are dispatched in descending
priority order, with equal priorities kept in registration order; and the
order is the stored list itself, which `Dispatch` follows without re-sorting:
when dispatch runs the whole chain, the results trace any stored list
(sorted or not) exactly in order. -/
theorem C3_dispatch_order (regs : List Middleware) :
    ((newChain regs).Pairwise (fun a b => b.priority ≤ a.priority))
    ∧ (∀ p : Int, (newChain regs).filter (fun m => m.priority == p)
        = regs.filter (fun m => m.priority == p))
    ∧ (∀ (mws : List Middleware) (e : Event) (rs : List DecisionResult)
        (e' : Event) (inv : List String),
        dispatchList mws e = .done rs e' inv →
        rs.map (fun r => (r.middlewareID, r.priority))
          = mws.map (fun m => (m.id, m.priority))) := by
  refine ⟨?_, fun p => newChain_filter regs p, fun mws e rs e' inv h => dispatchList_done_ids h⟩
  have h := newChain_pairwise regs
  refine h.imp ?_
  intro a b hab
  simpa [mwLE] using hab

/-- Witness for C3: the chain [low p=1, high p=10, mid p=5] sorts to
[high, mid, low]; three same-priority interceptors keep registration order;
dispatching a concrete two-interceptor chain records results in list order. -/
theorem C3_dispatch_order_witness :
    ((newChain [mwNoop "low" 1, mwNoop "high" 10, mwNoop "mid" 5]).Pairwise
      (fun a b => b.priority ≤ a.priority))
    ∧ ((newChain [mwNoop "a" 5, mwNoop "b" 5, mwNoop "c" 5]).filter
        (fun m => m.priority == (5 : Int))).map (fun m => m.id) = ["a", "b", "c"]
    ∧ ((dispatchList [mwNoop "a" 5, mwNoop "b" 5] eBefore).goResults.map
        (fun r => (r.middlewareID, r.priority)))
      = [mwNoop "a" 5, mwNoop "b" 5].map (fun m => (m.id, m.priority)) := by
  refine ⟨(C3_dispatch_order _).1, ?_, ?_⟩
  · rw [(C3_dispatch_order [mwNoop "a" 5, mwNoop "b" 5, mwNoop "c" 5]).2.1 5]
    rfl
  · have h := (C3_dispatch_order []).2.2 [mwNoop "a" 5, mwNoop "b" 5] eBefore
      [⟨"a", 5, {}⟩, ⟨"b", 5, {}⟩] eBefore ["a", "b"] rfl
    exact h

/-- C4: a cancelling decision stops the dispatch after its own entry: with
every earlier interceptor neither erroring nor cancelling, the result list is
exactly the earlier entries followed by the cancelling one, and nothing after
the cancelling interceptor is invoked.  In particular the chain
[low p=1, high p=10 cancel, mid p=5] invokes only `high` and records exactly
one result. -/
theorem C4_cancel_stops_dispatch :
    (∀ (pre post : List Middleware) (m : Middleware) (e : Event)
      (rs : List DecisionResult) (e' : Event) (inv : List String) (d : Decision),
      dispatchList pre e = .done rs e' inv →
      (m.conditional && !m.shouldLoad e') = false →
      m.onEvent e' = .ok d →
      d.cancel = true →
      dispatchList (pre ++ m :: post) e
        = .halted (rs ++ [⟨m.id, m.priority, d⟩]) (applyDecisionToEvent e' d)
            (inv ++ [m.id]))
    ∧ (dispatchList (newChain [mwNoop "low" 1, mwCancel "high" 10, mwNoop "mid" 5])
        eBefore).goResults.map (fun r => r.middlewareID) = ["high"]
    ∧ (dispatchList (newChain [mwNoop "low" 1, mwCancel "high" 10, mwNoop "mid" 5])
        eBefore).invokedIds = ["high"] := by
  refine ⟨?_, rfl, rfl⟩
  intro pre post m e rs e' inv d hpre hguard honv hcancel
  rw [dispatchList_append_done (m :: post) hpre]
  rw [dispatchList, if_neg (by simp [hguard]), honv]
  simp [hcancel, DispatchOut.after]

/-- Witness for C4: instantiating the cancel-stops statement on the scenario
chain [high cancel] after the empty prefix. -/
theorem C4_cancel_stops_dispatch_witness :
    dispatchList ([] ++ mwCancel "high" 10 :: [mwNoop "mid" 5, mwNoop "low" 1]) eBefore
      = .halted [⟨"high", 10, { cancel := true }⟩]
          (applyDecisionToEvent eBefore { cancel := true }) ["high"] := by
  have h := (C4_cancel_stops_dispatch).1 [] [mwNoop "mid" 5, mwNoop "low" 1]
    (mwCancel "high" 10) eBefore [] eBefore [] { cancel := true } rfl rfl rfl rfl
  simpa using h

/-- C7: a conditional interceptor whose ShouldLoad declines contributes the
fixed skipped entry (whose reason is non-empty), its OnEvent is not invoked
(the invocation trace is unchanged), and the remaining interceptors observe
the very same event. -/
theorem C7_skip_is_inert (mw : Middleware) (rest : List Middleware) (e : Event)
    (hcond : mw.conditional = true) (hload : mw.shouldLoad e = false) :
    dispatchList (mw :: rest) e
      = (dispatchList rest e).after [⟨mw.id, mw.priority, skipDecision⟩] []
    ∧ skipDecision.reason ≠ ""
    ∧ (dispatchList (mw :: rest) e).invokedIds = (dispatchList rest e).invokedIds
    ∧ (dispatchList (mw :: rest) e).event = (dispatchList rest e).event := by
  have hstep : dispatchList (mw :: rest) e
      = (dispatchList rest e).after [⟨mw.id, mw.priority, skipDecision⟩] [] := by
    rw [dispatchList, if_pos (by simp [hcond, hload])]
  refine ⟨hstep, by simp [skipDecision], ?_, ?_⟩ <;>
    (rw [hstep]; cases dispatchList rest e <;>
      simp [DispatchOut.after, DispatchOut.invokedIds, DispatchOut.event])

/-- Witness for C7: a declining conditional interceptor in front of a no-op
interceptor, on a concrete event. -/
theorem C7_skip_is_inert_witness :
    dispatchList [mwOff "off" 5, mwNoop "on" 5] eBefore
      = (dispatchList [mwNoop "on" 5] eBefore).after
          [⟨"off", 5, skipDecision⟩] []
    ∧ (dispatchList [mwOff "off" 5, mwNoop "on" 5] eBefore).invokedIds
      = (dispatchList [mwNoop "on" 5] eBefore).invokedIds := by
  have h := C7_skip_is_inert (mwOff "off" 5) [mwNoop "on" 5] eBefore rfl rfl
  exact ⟨h.1, h.2.2.1⟩

/-- C8 counterexample: with the chain [a no-op p=5, b erroring p=5], `a` runs
before `b` (both are invoked), yet the result list `Dispatch` returns with the
error is empty: the results recorded before the error are discarded
(chain.go returns `nil, err`), so the claim that they are returned is false. -/
theorem C8_counterexample :
    (dispatch (newChain [mwNoop "a" 5, mwBoom "b" 5]) eBefore).2 = some "boom"
    ∧ (dispatchList (newChain [mwNoop "a" 5, mwBoom "b" 5]) eBefore).invokedIds
        = ["a", "b"]
    ∧ (dispatch (newChain [mwNoop "a" 5, mwBoom "b" 5]) eBefore).1 = [] := by
  exact ⟨rfl, rfl, rfl⟩

/-- C8 (amended): when an interceptor errors, dispatch halts there — nothing
after it is invoked — and returns the error, but with an empty result list:
the entries recorded for the interceptors that ran earlier are discarded. -/
theorem C8_error_discards_results
    (pre post : List Middleware) (m : Middleware) (e : Event)
    (rs : List DecisionResult) (e' : Event) (inv : List String) (err : String)
    (hpre : dispatchList pre e = .done rs e' inv)
    (hguard : (m.conditional && !m.shouldLoad e') = false)
    (honv : m.onEvent e' = .error err) :
    dispatch (pre ++ m :: post) e = ([], some err)
    ∧ (dispatchList (pre ++ m :: post) e).invokedIds = inv ++ [m.id] := by
  have hstep : dispatchList (pre ++ m :: post) e
      = .failed err e' (inv ++ [m.id]) := by
    rw [dispatchList_append_done (m :: post) hpre]
    rw [dispatchList, if_neg (by simp [hguard]), honv]
    simp [DispatchOut.after]
  rw [dispatch, hstep]
  simp [DispatchOut.goResults, DispatchOut.goError, DispatchOut.invokedIds]

/-- Witness for C8 (amended): the two-interceptor scenario of the
counterexample, instantiated through the amended theorem. -/
theorem C8_error_discards_results_witness :
    dispatch ([mwNoop "a" 5] ++ mwBoom "b" 5 :: []) eBefore = ([], some "boom")
    ∧ (dispatchList ([mwNoop "a" 5] ++ mwBoom "b" 5 :: []) eBefore).invokedIds
        = ["a"] ++ ["b"] := by
  have h := C8_error_discards_results [mwNoop "a" 5] [] (mwBoom "b" 5) eBefore
    [⟨"a", 5, {}⟩] eBefore ["a"] "boom" rfl rfl rfl
  exact ⟨h.1, h.2⟩

/-- C2: the pruning step at the start of every send (part_003 lines 106-109,
applied by `sendWithContext` before anything else touches the history): a
history longer than 20 messages is cut to exactly its newest 20, in order (a
suffix), and a history of at most 20 messages is left unchanged. -/
theorem C2_prune_to_twenty (h : List Message) :
    (h.length > 20 →
      pruneHistory h = h.drop (h.length - 20)
      ∧ (pruneHistory h).length = 20
      ∧ List.IsSuffix (pruneHistory h) h)
    ∧ (h.length ≤ 20 → pruneHistory h = h) := by
  constructor
  · intro hl
    rw [pruneHistory, if_pos hl]
    refine ⟨rfl, ?_, List.drop_suffix _ _⟩
    rw [List.length_drop]
    omega
  · intro hl
    rw [pruneHistory, if_neg (by omega)]

/-- Witness for C2: a 21-message history prunes to its newest 20; a 5-message
history is untouched. -/
theorem C2_prune_to_twenty_witness :
    (pruneHistory (List.replicate 21 (Message.mk .user "m" [] "" ""))).length = 20
    ∧ pruneHistory (List.replicate 5 (Message.mk .user "m" [] "" ""))
        = List.replicate 5 (Message.mk .user "m" [] "" "") :=
  ⟨((C2_prune_to_twenty _).1 (by simp)).2.1, (C2_prune_to_twenty _).2 (by simp)⟩

lemma scoreDocs_mem {qset docs : List String} {x : Scored}
    (hx : x ∈ scoreDocs qset docs) :
    x.text ∈ docs ∧ x.score = overlap qset (tokenSet x.text) ∧ 0 < x.score := by
  rcases List.mem_filterMap.mp hx with ⟨d, hd, hmap⟩
  by_cases h1 : (d == "") = true
  · rw [if_pos h1] at hmap; cases hmap
  · rw [if_neg h1] at hmap
    by_cases h2 : overlap qset (tokenSet d) > 0
    · rw [if_pos h2] at hmap
      cases hmap
      exact ⟨hd, rfl, h2⟩
    · rw [if_neg h2] at hmap; cases hmap

lemma scoreDocs_eq_nil {qset docs : List String}
    (hz : ∀ d ∈ docs, overlap qset (tokenSet d) = 0) :
    scoreDocs qset docs = [] := by
  rw [scoreDocs, List.filterMap_eq_nil_iff]
  intro d hd
  by_cases h1 : (d == "") = true
  · rw [if_pos h1]
  · rw [if_neg h1, if_neg (by simp [hz d hd])]

/-- Members of the sorted-and-truncated scored list are members of the scored
list. -/
lemma mem_of_mem_querySorted {sc : List Scored} {k : Int} {x : Scored}
    (hx : x ∈ (if ((sortStable scoredLE sc).length : Int) > k
        then (sortStable scoredLE sc).take k.toNat
        else sortStable scoredLE sc)) :
    x ∈ sc := by
  have hmem : x ∈ sortStable scoredLE sc := by
    by_cases hcase : ((sortStable scoredLE sc).length : Int) > k
    · rw [if_pos hcase] at hx
      exact List.mem_of_mem_take hx
    · rwa [if_neg hcase] at hx
  exact (sortStable_perm scoredLE sc).mem_iff.mp hmem

/-- C6: for every store, session, query and k the result holds at most
`max k 0` documents, drawn from the session's stored documents, sorted by
descending token-set overlap with ties broken by shorter byte length; and the
result is empty when the session has no documents, when the query trims to
empty, and when `k ≤ 0`. -/
theorem C6_query_ranking (st : Store) (session q : String) (k : Int) :
    ((storeQuery st session q k).length : Int) ≤ max k 0
    ∧ (storeQuery st session q k).Pairwise (rankedBy q)
    ∧ (∀ d ∈ storeQuery st session q k, d ∈ docsOf st session)
    ∧ (docsOf st session = [] → storeQuery st session q k = [])
    ∧ (goTrim q = "" → storeQuery st session q k = [])
    ∧ (k ≤ 0 → storeQuery st session q k = []) := by
  rw [storeQuery]
  by_cases hguard :
      ((docsOf st session).isEmpty || goTrim q == "" || decide (k ≤ 0)) = true
  · rw [if_pos hguard]
    refine ⟨by positivity, by simp, by simp, fun _ => rfl, fun _ => rfl, fun _ => rfl⟩
  · rw [if_neg hguard]
    have hdocs : docsOf st session ≠ [] := by
      intro hh; exact hguard (by simp [hh])
    have htrim : goTrim q ≠ "" := by
      intro hh; exact hguard (by simp [hh])
    have hk : ¬ k ≤ 0 := by
      intro hh; exact hguard (by simp [hh])
    set sc := scoreDocs (tokenSet q) (docsOf st session) with hsc
    by_cases hempty : sc.isEmpty = true
    · rw [if_pos hempty]
      refine ⟨by positivity, by simp, by simp, fun _ => rfl,
        fun hq => absurd hq htrim, fun hkk => absurd hkk hk⟩
    · rw [if_neg hempty]
      set sorted := (if ((sortStable scoredLE sc).length : Int) > k
        then (sortStable scoredLE sc).take k.toNat
        else sortStable scoredLE sc) with hsorted
      have hsortedPw : sorted.Pairwise (fun a b => scoredLE a b) := by
        have hbase := sortStable_pairwise scoredLE scoredLE_trans scoredLE_total sc
        rw [hsorted]
        by_cases hcase : ((sortStable scoredLE sc).length : Int) > k
        · rw [if_pos hcase]
          exact hbase.sublist (List.take_sublist _ _)
        · rwa [if_neg hcase]
      refine ⟨?_, ?_, ?_, ?_, fun hq => absurd hq htrim, fun hkk => absurd hkk hk⟩
      · rw [List.length_map, ← hsorted]
        by_cases hcase : ((sortStable scoredLE sc).length : Int) > k
        · rw [hsorted, if_pos hcase, List.length_take]
          have hk0 : (0 : Int) < k := by omega
          have : (k.toNat : Int) = k := Int.toNat_of_nonneg (by omega)
          omega
        · rw [hsorted, if_neg hcase]
          omega
      · rw [List.pairwise_map]
        refine hsortedPw.imp_of_mem ?_
        intro a b ha hb hab
        have hainv := scoreDocs_mem (mem_of_mem_querySorted (hsorted ▸ ha))
        have hbinv := scoreDocs_mem (mem_of_mem_querySorted (hsorted ▸ hb))
        simp only [scoredLE, Bool.or_eq_true, Bool.and_eq_true, decide_eq_true_eq,
          beq_iff_eq] at hab
        rw [rankedBy, ← hainv.2.1, ← hbinv.2.1]
        rcases hab with hlt | ⟨heq, hlen⟩
        · left; omega
        · right; exact ⟨heq, hlen⟩
      · intro d hd
        rcases List.mem_map.mp hd with ⟨x, hx, rfl⟩
        exact (scoreDocs_mem (mem_of_mem_querySorted (hsorted ▸ hx))).1
      · intro hde
        exact absurd hde hdocs

/-- Witness for C6: on a populated store, querying "alpha beta" with k = 2 is
ranked and bounded; the three emptiness conclusions hold at concrete inputs. -/
theorem C6_query_ranking_witness :
    ((storeQuery stSample "s" "alpha beta" 2).length : Int) ≤ max 2 0
    ∧ (∀ d ∈ storeQuery stSample "s" "alpha beta" 2, d ∈ docsOf stSample "s")
    ∧ storeQuery [] "s" "alpha" 3 = []
    ∧ storeQuery stSample "s" "   " 3 = []
    ∧ storeQuery stSample "s" "alpha" 0 = [] :=
  ⟨(C6_query_ranking stSample "s" "alpha beta" 2).1,
   (C6_query_ranking stSample "s" "alpha beta" 2).2.2.1,
   (C6_query_ranking [] "s" "alpha" 3).2.2.2.1 rfl,
   (C6_query_ranking stSample "s" "   " 3).2.2.2.2.1 (by decide),
   (C6_query_ranking stSample "s" "alpha" 0).2.2.2.2.2 (by decide)⟩

/-- C10: for positive k, every document `Query` returns shares at least one
token with the query, and when no stored document overlaps the query the
result is empty. -/
theorem C10_no_zero_overlap (st : Store) (session q : String) (k : Int)
    (_hk : 0 < k) :
    (∀ d ∈ storeQuery st session q k, 0 < overlap (tokenSet q) (tokenSet d))
    ∧ ((∀ d ∈ docsOf st session, overlap (tokenSet q) (tokenSet d) = 0) →
        storeQuery st session q k = []) := by
  constructor
  · intro d hd
    rw [storeQuery] at hd
    by_cases hguard :
        ((docsOf st session).isEmpty || goTrim q == "" || decide (k ≤ 0)) = true
    · rw [if_pos hguard] at hd; cases hd
    · rw [if_neg hguard] at hd
      by_cases hempty : (scoreDocs (tokenSet q) (docsOf st session)).isEmpty = true
      · rw [if_pos hempty] at hd; cases hd
      · rw [if_neg hempty] at hd
        rcases List.mem_map.mp hd with ⟨x, hx, rfl⟩
        have hinv := scoreDocs_mem (mem_of_mem_querySorted hx)
        rw [← hinv.2.1]
        exact hinv.2.2
  · intro hz
    rw [storeQuery]
    by_cases hguard :
        ((docsOf st session).isEmpty || goTrim q == "" || decide (k ≤ 0)) = true
    · rw [if_pos hguard]
    · rw [if_neg hguard, scoreDocs_eq_nil hz]
      rfl

/-- Witness for C10: the sample store's hit for "alpha" overlaps the query,
and a query sharing no token with any stored document returns nothing. -/
theorem C10_no_zero_overlap_witness :
    0 < overlap (tokenSet "alpha") (tokenSet "alpha beta")
    ∧ storeQuery stSample "s" "zz" 2 = [] :=
  ⟨(C10_no_zero_overlap stSample "s" "alpha" 2 (by decide)).1 "alpha beta" (by decide),
   (C10_no_zero_overlap stSample "s" "zz" 2 (by decide)).2 (by decide)⟩

lemma sendWithContext_hb_svc (env : Env) (svc : Service) (input : String)
    (ctx : Option Ctx) (hhb : ctxIsHeartbeat ctx = true) (hne : goTrim input ≠ "") :
    (sendWithContext env svc input ctx).svc
      = { svc with history := pruneHistory svc.history } := by
  rw [sendWithContext]
  simp only [hhb]
  rw [if_neg (by simpa using hne)]
  split
  · exact sendLoopPhase_hb_svc _ _ _ _ _ _
  · split
    · rfl
    all_goals
      split <;> first
        | exact sendLoopPhase_hb_svc _ _ _ _ _ _
        | (split_ifs <;> first
            | rfl
            | exact sendLoopPhase_hb_svc _ _ _ _ _ _)

lemma sendLoopPhase_cases (env : Env) (svc : Service) (mwCtx : Option Ctx)
    (input : String) (params0 : Option LLMParams) (hb : Bool) (mc : String) :
    (sendLoopPhase env svc mwCtx input params0 hb mc).svc = svc
    ∨ ∃ s, (sendLoopPhase env svc mwCtx input params0 hb mc).reply = .ok s := by
  rw [sendLoopPhase]
  split
  · exact Or.inl rfl
  · exact Or.inr (sendFinish_reply_ok _ _ _ _ _ _ _)
  · exact Or.inr (sendFinish_reply_ok _ _ _ _ _ _ _)

/-- Every outcome of a non-empty-input send either leaves the service at
exactly its pruned state or replies with success. -/
lemma sendWithContext_cases (env : Env) (svc : Service) (input : String)
    (ctx : Option Ctx) (hne : goTrim input ≠ "") :
    (sendWithContext env svc input ctx).svc
        = { svc with history := pruneHistory svc.history }
    ∨ ∃ s, (sendWithContext env svc input ctx).reply = .ok s := by
  rw [sendWithContext]
  simp only []
  rw [if_neg (by simpa using hne)]
  split
  · exact sendLoopPhase_cases _ _ _ _ _ _ _
  · split
    · exact Or.inl rfl
    all_goals
      split <;> first
        | exact sendLoopPhase_cases _ _ _ _ _ _ _
        | (split_ifs <;> first
            | exact Or.inl rfl
            | exact Or.inr ⟨_, rfl⟩
            | exact sendLoopPhase_cases _ _ _ _ _ _ _)

lemma sendFinish_reply_no_chain (svc : Service) (mwCtx : Option Ctx) (hb : Bool)
    (input fr : String) (cur : List Message) (calls : Nat)
    (h : svc.mws = none) :
    (sendFinish svc mwCtx hb input fr cur calls).reply = .ok fr := by
  rw [sendFinish]
  have h' : (if hb then svc
      else { svc with history := commitHistory svc.history input cur }).mws = none := by
    cases hb <;> simpa using h
  simp only [postDispatch_no_chain _ _ _ _ h']

lemma sendLoopPhase_exhausted_reply (env : Env) (svc : Service) (mwCtx : Option Ctx)
    (input : String) (params0 : Option LLMParams) (hb : Bool) (mc : String)
    (hmws : svc.mws = none)
    (hadp : ∀ i msgs, ∃ t tcs, env.adapter i msgs = .ok (t, tcs) ∧ tcs ≠ []) :
    (sendLoopPhase env svc mwCtx input params0 hb mc).reply = .ok "" := by
  rw [sendLoopPhase]
  obtain ⟨cur', hcur⟩ := agentLoop_exhausts env svc mwCtx (loopParams params0 svc.skills)
    mc hadp 10 0 (svc.history ++ [{ role := .user, content := input }])
  rw [hcur]
  exact sendFinish_reply_no_chain _ _ _ _ _ _ _ hmws

lemma sendLoopPhase_first_error (env : Env) (svc : Service) (mwCtx : Option Ctx)
    (input : String) (params0 : Option LLMParams) (hb : Bool) (mc : String)
    (err : String) (hadp : ∀ msgs, env.adapter 0 msgs = .error err) :
    (sendLoopPhase env svc mwCtx input params0 hb mc).reply = .error err := by
  rw [sendLoopPhase]
  have hfail : agentLoop env svc mwCtx (loopParams params0 svc.skills) mc 10 0
      (svc.history ++ [{ role := .user, content := input }]) = .failed err 1 := by
    rw [show (10 : Nat) = 9 + 1 from rfl, agentLoop]
    simp only [hadp]
  rw [hfail]

/-- C1 (amended): one send makes at most 10 LLM adapter calls (the loop runs
`maxIterations = 10` iterations, each making one call); and when every
iteration comes back with tool calls, the cap is reached and — with no
middleware chain to rewrite the reply — send succeeds with the empty string:
`finalResponse` is never assigned in that run, so the last assistant text is
not returned. -/
theorem C1_iteration_cap (env : Env) (svc : Service) (input : String)
    (ctx : Option Ctx) :
    ((sendWithContext env svc input ctx).calls ≤ 10)
    ∧ (goTrim input ≠ "" → svc.mws = none →
        (∀ i msgs, ∃ t tcs, env.adapter i msgs = .ok (t, tcs) ∧ tcs ≠ []) →
        (sendWithContext env svc input ctx).reply = .ok "") := by
  constructor
  · rw [sendWithContext]
    simp only []
    by_cases hin : (goTrim input == "") = true
    · rw [if_pos hin]
      simp
    · rw [if_neg hin]
      split
      · exact sendLoopPhase_calls_le _ _ _ _ _ _ _
      · split
        · simp
        all_goals
          split <;> first
            | exact sendLoopPhase_calls_le _ _ _ _ _ _ _
            | (split_ifs <;> first
                | simp
                | exact sendLoopPhase_calls_le _ _ _ _ _ _ _)
  · intro hne hmws hadp
    rw [sendWithContext]
    simp only [hmws]
    rw [if_neg (by simpa using hne)]
    exact sendLoopPhase_exhausted_reply env _ _ _ _ _ _ rfl hadp

/-- C1 counterexample: an adapter that always returns text "T" with one tool
call drives the loop to the cap; send succeeds but replies with the empty
string, while every assistant message of the turn (the last included) carries
text "T" — the final reply is not the last assistant text as claimed. -/
theorem C1_counterexample :
    (sendWithContext envToolsForever svcBare "hi" none).reply = .ok ""
    ∧ ((sendWithContext envToolsForever svcBare "hi" none).svc.history.filter
        (fun m => m.role == .assistant)).map (fun m => m.content)
      = List.replicate 10 "T"
    ∧ ("" : String) ≠ "T" := by
  refine ⟨rfl, by decide, by decide⟩

/-- Witness for C1: the cap scenario adapter makes the amended theorem's
hypotheses concrete; the call bound and the empty final reply follow. -/
theorem C1_iteration_cap_witness :
    (sendWithContext envToolsForever svcBare "hi" none).calls ≤ 10
    ∧ (sendWithContext envToolsForever svcBare "hi" none).reply = .ok "" :=
  ⟨(C1_iteration_cap envToolsForever svcBare "hi" none).1,
   (C1_iteration_cap envToolsForever svcBare "hi" none).2 (by decide) rfl
     (fun _ _ => ⟨"T", [⟨"1", "x", "\x7b\x7d"⟩], rfl, by decide⟩)⟩

/-- C5 (amended): an error outcome of a non-empty-input send (the adapter's
transport error included) leaves the persistent service state at exactly its
pruned form — no user message is committed and memory is untouched — and when
the first adapter call fails, send surfaces precisely that error.  (The claim's
"history is exactly what it was" fails only because the initial pruning to 20
messages persists.) -/
theorem C5_error_rollback (env : Env) (svc : Service) (input : String)
    (ctx : Option Ctx) (err : String) :
    (goTrim input ≠ "" →
      (sendWithContext env svc input ctx).reply = .error err →
      (sendWithContext env svc input ctx).svc
        = { svc with history := pruneHistory svc.history })
    ∧ (goTrim input ≠ "" → svc.mws = none →
        (∀ msgs, env.adapter 0 msgs = .error err) →
        (sendWithContext env svc input ctx).reply = .error err) := by
  constructor
  · intro hne herr
    rcases sendWithContext_cases env svc input ctx hne with h | ⟨s, hs⟩
    · exact h
    · rw [herr] at hs
      cases hs
  · intro hne hmws hadp
    rw [sendWithContext]
    simp only [hmws]
    rw [if_neg (by simpa using hne)]
    exact sendLoopPhase_first_error env _ _ _ _ _ _ err hadp

/-- C5 counterexample: with a 21-message history and an adapter that fails
immediately, send returns the error but the persistent history now holds 20
messages, not the 21 it held before the turn: it is not "exactly what it was". -/
theorem C5_counterexample :
    (sendWithContext envBoom svc21 "hi" none).reply = .error "boom"
    ∧ (sendWithContext envBoom svc21 "hi" none).svc.history.length = 20
    ∧ svc21.history.length = 21 := by
  refine ⟨rfl, by decide, by decide⟩

/-- Witness for C5: the failing-adapter scenario instantiates both halves of
the amended theorem. -/
theorem C5_error_rollback_witness :
    (sendWithContext envBoom svc21 "hi" none).svc
        = { svc21 with history := pruneHistory svc21.history }
    ∧ (sendWithContext envBoom svc21 "hi" none).reply = .error "boom" :=
  ⟨(C5_error_rollback envBoom svc21 "hi" none "boom").1 (by decide)
      ((C5_error_rollback envBoom svc21 "hi" none "boom").2 (by decide) rfl
        (fun _ => rfl)),
   (C5_error_rollback envBoom svc21 "hi" none "boom").2 (by decide) rfl
     (fun _ => rfl)⟩

/-- C9 (amended): a heartbeat turn with non-empty input leaves the persistent
history at exactly its pruned form — nothing is appended in any outcome — and
indexes nothing into the memory store.  (The claim's "history unchanged" fails
only because the initial pruning to 20 messages runs before the heartbeat
guard.) -/
theorem C9_heartbeat_frame (env : Env) (svc : Service) (input : String)
    (ctx : Option Ctx) (hhb : ctxIsHeartbeat ctx = true)
    (hne : goTrim input ≠ "") :
    (sendWithContext env svc input ctx).svc.history = pruneHistory svc.history
    ∧ (sendWithContext env svc input ctx).svc.mem = svc.mem := by
  rw [sendWithContext_hb_svc env svc input ctx hhb hne]
  exact ⟨rfl, rfl⟩

/-- C9 counterexample: a heartbeat send over a 21-message history completes
normally and indexes nothing, but the persistent history shrinks from 21 to
its pruned 20 messages — it is not left unchanged. -/
theorem C9_counterexample :
    (sendWithContext envPlain svc21mem "hi" hbCtx).svc.history.length = 20
    ∧ svc21mem.history.length = 21
    ∧ (sendWithContext envPlain svc21mem "hi" hbCtx).reply = .ok "T"
    ∧ (sendWithContext envPlain svc21mem "hi" hbCtx).svc.mem = some [] := by
  refine ⟨by decide, by decide, rfl, rfl⟩

/-- Witness for C9: the heartbeat scenario instantiates the amended theorem. -/
theorem C9_heartbeat_frame_witness :
    (sendWithContext envPlain svc21mem "hi" hbCtx).svc.history
        = pruneHistory svc21mem.history
    ∧ (sendWithContext envPlain svc21mem "hi" hbCtx).svc.mem = svc21mem.mem :=
  C9_heartbeat_frame envPlain svc21mem "hi" hbCtx rfl (by decide)

end IRon
